import Mathlib

/-!
Verification of the RTF (Register Target Framework) core against its
natural-language specification.

The embedding models, from the C++ source in `RTF.h` (and the `chunkify`
helper of the newer header variant):

* the exception taxonomy (`Err`),
* the underlying register-target capability (`RegisterTarget`): the two
  mandatory primitives plus the seven virtual batch operations, each an
  arbitrary `Except`-valued state transformer (overrides are arbitrary);
* the default (base-class) implementations of the batch operations,
  instrumented with the trace of primitive calls (`TCall`) they issue;
* the `BasicPoller` timed polling loop, over an idealised discrete clock
  in which every sleep advances the clock by its duration and every
  re-check iteration costs one additional clock tick (real time strictly
  advances on every loop iteration of the source);
* the `FluentRegisterTarget` instrumented execution wrapper: every
  operation, the events it reports to the interposer (`FEvent`), the
  target-method calls it makes, and its outcome (`OpResult`);
* the `chunkify` helper, with explicit fuel so that the source's
  non-termination at `max_chunk_size = 0` is observable as fuel
  exhaustion at every fuel.

Machine integers are modelled as `Nat`; bitwise AND (`&&&`) never
overflows, and address arithmetic of the default sequential operations
carries an explicit `% 2 ^ w` for the address width `w`.
-/

namespace RTF

/-- Exceptions of the framework.  `dev` is any exception raised by the
underlying target's own code (`std::exception` in the source); the other
constructors mirror `WriteVerifyFailureException`,
`ReadVerifyFailureException`, `PollReadTimeoutException` (each built from
`expected_val = data & mask`, the mask, and the full readback value), and
the `assert(addresses.size() == out_data.size())` argument-count failure
of `IRegisterTarget::compRead`. -/
inductive Err (ε : Type) where
  | dev : ε → Err ε
  | writeVerifyFailure (expected mask fullActual : Nat) : Err ε
  | readVerifyFailure (expected mask fullActual : Nat) : Err ε
  | pollTimeout (expected mask fullActual : Nat) : Err ε
  | argumentError (addrCount outCount : Nat) : Err ε
  deriving DecidableEq, Repr

/-- A call made on the underlying `IRegisterTarget` (virtual dispatch
boundary), recorded with its arguments.  `read`/`write` are the two
primitives; the rest are the batch entry points forwarded by the fluent
wrapper. -/
inductive TCall where
  | write (addr data : Nat) : TCall
  | read (addr : Nat) : TCall
  | readModifyWrite (addr newData mask : Nat) : TCall
  | seqWrite (start : Nat) (data : List Nat) (inc : Nat) : TCall
  | seqRead (start count inc : Nat) : TCall
  | fifoWrite (addr : Nat) (data : List Nat) : TCall
  | fifoRead (addr count : Nat) : TCall
  | compWrite (pairs : List (Nat × Nat)) : TCall
  | compRead (addrs : List Nat) (outLen : Nat) : TCall
  deriving DecidableEq, Repr

/-- An event observed by an `IFluentRegisterTargetInterposer`.  The first
two fields of every event are the two leading `string_view` arguments of
the corresponding hook (`target_domain`, `target_instance`).  The payload
of `opStart` abbreviates the formatted operation message to the operation
name; `opExtra` carries the numeric values the source formats into its
payload string; `opError` carries the exception whose `what()` message the
source passes. -/
inductive FEvent (ε : Type) where
  | seqAnn (domain inst msg : String) : FEvent ε
  | stepAnn (domain inst msg : String) : FEvent ε
  | opStart (domain inst msg : String) : FEvent ε
  | opExtra (domain inst : String) (values : List Nat) : FEvent ε
  | opEnd (domain inst : String) : FEvent ε
  | opError (domain inst : String) (e : Err ε) : FEvent ε
  deriving DecidableEq

/-- Domain (first hook argument) of an event. -/
def FEvent.domainOf : FEvent ε → String
  | .seqAnn d _ _ => d
  | .stepAnn d _ _ => d
  | .opStart d _ _ => d
  | .opExtra d _ _ => d
  | .opEnd d _ => d
  | .opError d _ _ => d

/-- Instance identity (second hook argument) of an event. -/
def FEvent.instOf : FEvent ε → String
  | .seqAnn _ i _ => i
  | .stepAnn _ i _ => i
  | .opStart _ i _ => i
  | .opExtra _ i _ => i
  | .opEnd _ i => i
  | .opError _ i _ => i

/-- Whether an event is an `opExtra` data event. -/
def FEvent.isExtra : FEvent ε → Bool
  | .opExtra _ _ _ => true
  | _ => false

/-- Outcome of a fluent operation: `ok` carries the data handed back to
the caller through out-parameters/return values and the target state;
`failed` carries the propagated exception and, when the exception was
raised by the wrapper itself after the last target call returned (verify
mismatch, poll timeout), the target state at that point.  For an
exception propagated out of the underlying target the state is `none`
(the model's target methods do not report a state when they throw). -/
inductive OpResult (σ ε : Type) where
  | ok (outs : List Nat) (s : σ) : OpResult σ ε
  | failed (e : Err ε) (state? : Option σ) : OpResult σ ε

/-- Everything observable about one fluent operation: the interposer
events in order, the calls made on the underlying target in order, and
the outcome. -/
structure FluentOut (σ ε : Type) where
  events : List (FEvent ε)
  calls : List TCall
  result : OpResult σ ε

/-- The `IRegisterTarget` capability: instance name (`getName`), domain
(`getDomain`), the two mandatory primitives and the seven virtual batch
operations.  Every method is an arbitrary `Except`-valued state
transformer, so a quantification over `RegisterTarget` covers every
behaviour of a user subclass, including overridden batch operations and
methods that throw. -/
structure RegisterTarget (σ ε : Type) where
  name : String
  domain : String
  write : σ → Nat → Nat → Except (Err ε) σ
  read : σ → Nat → Except (Err ε) (Nat × σ)
  readModifyWrite : σ → Nat → Nat → Nat → Except (Err ε) σ
  seqWrite : σ → Nat → List Nat → Nat → Except (Err ε) σ
  seqRead : σ → Nat → Nat → Nat → Except (Err ε) (List Nat × σ)
  fifoWrite : σ → Nat → List Nat → Except (Err ε) σ
  fifoRead : σ → Nat → Nat → Except (Err ε) (List Nat × σ)
  compWrite : σ → List (Nat × Nat) → Except (Err ε) σ
  compRead : σ → List Nat → Nat → Except (Err ε) (List Nat × σ)

/-- One evaluation of the check functor handed to a poller: the functor
returns a boolean and the new state, or throws.  `thrown` still carries a
state so that instrumentation (the recorded call trace) survives an
exception; the target state inside is the one from before the failing
call. -/
inductive PollStep (σp ε : Type) where
  | val (b : Bool) (s : σp) : PollStep σp ε
  | thrown (e : ε) (s : σp) : PollStep σp ε

/-- How a poll loop ended. -/
inductive PollRes (ε : Type) where
  | success : PollRes ε
  | timedOut : PollRes ε
  | err (e : ε) : PollRes ε
  deriving Repr, DecidableEq

/-- Observable output of a poll loop: how many times the check functor
was evaluated, the clock value when the loop returned, the verdict, and
the final state. -/
structure PollOut (σp ε : Type) where
  evals : Nat
  endTime : Nat
  res : PollRes ε
  state : σp

/-- The do-while loop of `BasicPoller::operator()` (RTF.h lines 118-123):
evaluate the functor; on `true` return success; otherwise sleep
`wait_delay` and repeat while the clock is still before
`start + timeout`.  The clock is idealised: each iteration advances it by
the wait delay plus one tick for the re-check itself, so that time
strictly advances on every iteration exactly as real time does in the
source. -/
def basicPollLoop (wait timeout start : Nat) (fn : σp → PollStep σp ε)
    (now : Nat) (s : σp) (evals : Nat) : PollOut σp ε :=
  match fn s with
  | .thrown e s' => ⟨evals + 1, now, .err e, s'⟩
  | .val true s' => ⟨evals + 1, now, .success, s'⟩
  | .val false s' =>
    if h : now + wait + 1 < start + timeout then
      basicPollLoop wait timeout start fn (now + wait + 1) s' (evals + 1)
    else
      ⟨evals + 1, now + wait + 1, .timedOut, s'⟩
termination_by start + timeout - now
decreasing_by omega

/-- `BasicPoller`: the `(initial_delay, wait_delay, timeout)` triple of
the default timed poller (durations as natural clock ticks). -/
structure BasicPoller where
  initialDelay : Nat
  waitDelay : Nat
  timeout : Nat
  deriving DecidableEq, Repr

/-- `BasicPoller::operator()` started at absolute clock value `t0`:
sleep `initial_delay`, record the start timestamp, then run the do-while
loop (RTF.h lines 113-124). -/
def BasicPoller.runAt (p : BasicPoller) (fn : σp → PollStep σp ε)
    (t0 : Nat) (s : σp) : PollOut σp ε :=
  basicPollLoop p.waitDelay p.timeout (t0 + p.initialDelay) fn
    (t0 + p.initialDelay) s 0

/-! ### The FluentRegisterTarget instrumented execution wrapper

Each operation of `FluentRegisterTarget` (RTF.h lines 330-827) is one
definition.  `ip` is whether an interposer is attached (`this->interposer
!= nullptr`); when it is `false` no events are emitted.  Every event's
first argument is the string literal `"FluentRegisterTarget"` and its
second is `this->target->getName()`, exactly as in the source's private
`opStart`/`opExtra`/`opEnd`/`opError` helpers (RTF.h lines 245-300) and
`seq`/`step` (lines 330-360). -/

/-- Emit the events only when an interposer is attached. -/
def emitIf (ip : Bool) (l : List (FEvent ε)) : List (FEvent ε) :=
  if ip then l else []

/-- One `opExtra` event per data element (the per-element overloads of
the private `opExtra` helper, RTF.h lines 258-280). -/
def extrasOf (nm : String) (vals : List Nat) : List (FEvent ε) :=
  vals.map fun v => .opExtra "FluentRegisterTarget" nm [v]

/-- One `opExtra` event per (address, data) pair (RTF.h lines 281-288). -/
def extrasOfPairs (nm : String) (pairs : List (Nat × Nat)) : List (FEvent ε) :=
  pairs.map fun ad => .opExtra "FluentRegisterTarget" nm [ad.1, ad.2]

/-- `FluentRegisterTarget::seq` (annotation hook, RTF.h lines 330-344). -/
def fluentSeq (tgt : RegisterTarget σ ε) (ip : Bool) (msg : String) :
    List (FEvent ε) :=
  emitIf ip [.seqAnn "FluentRegisterTarget" tgt.name msg]

/-- `FluentRegisterTarget::step` (annotation hook, RTF.h lines 346-360). -/
def fluentStep (tgt : RegisterTarget σ ε) (ip : Bool) (msg : String) :
    List (FEvent ε) :=
  emitIf ip [.stepAnn "FluentRegisterTarget" tgt.name msg]

/-- `FluentRegisterTarget::null` (RTF.h lines 362-367): start/end pair,
no underlying work. -/
def fluentNull (tgt : RegisterTarget σ ε) (ip : Bool) (s : σ) :
    FluentOut σ ε :=
  { events := emitIf ip [.opStart "FluentRegisterTarget" tgt.name "Null",
      .opEnd "FluentRegisterTarget" tgt.name]
    calls := []
    result := .ok [] s }

/-- `FluentRegisterTarget::delay` (RTF.h lines 369-375): start, sleep
(no observable effect on target state), end.  `d` is the duration. -/
def fluentDelay (tgt : RegisterTarget σ ε) (ip : Bool) (s : σ) (_d : Nat) :
    FluentOut σ ε :=
  { events := emitIf ip [.opStart "FluentRegisterTarget" tgt.name "Delay",
      .opEnd "FluentRegisterTarget" tgt.name]
    calls := []
    result := .ok [] s }

/-- `FluentRegisterTarget::write` (RTF.h lines 377-389). -/
def fluentWrite (tgt : RegisterTarget σ ε) (ip : Bool) (s : σ)
    (addr data : Nat) : FluentOut σ ε :=
  match tgt.write s addr data with
  | .error e =>
    { events := emitIf ip [.opStart "FluentRegisterTarget" tgt.name "Write",
        .opError "FluentRegisterTarget" tgt.name e]
      calls := [.write addr data]
      result := .failed e none }
  | .ok s' =>
    { events := emitIf ip [.opStart "FluentRegisterTarget" tgt.name "Write",
        .opEnd "FluentRegisterTarget" tgt.name]
      calls := [.write addr data]
      result := .ok [] s' }

/-- `FluentRegisterTarget::read` (RTF.h lines 408-421): the value read is
reported through one `opExtra` event after the underlying call. -/
def fluentRead (tgt : RegisterTarget σ ε) (ip : Bool) (s : σ)
    (addr : Nat) : FluentOut σ ε :=
  match tgt.read s addr with
  | .error e =>
    { events := emitIf ip [.opStart "FluentRegisterTarget" tgt.name "Read",
        .opError "FluentRegisterTarget" tgt.name e]
      calls := [.read addr]
      result := .failed e none }
  | .ok (v, s') =>
    { events := emitIf ip [.opStart "FluentRegisterTarget" tgt.name "Read",
        .opExtra "FluentRegisterTarget" tgt.name [v],
        .opEnd "FluentRegisterTarget" tgt.name]
      calls := [.read addr]
      result := .ok [v] s' }

/-- `FluentRegisterTarget::readModifyWrite` (RTF.h lines 454-466):
forwards to the target's virtual `readModifyWrite`. -/
def fluentReadModifyWrite (tgt : RegisterTarget σ ε) (ip : Bool) (s : σ)
    (addr newData mask : Nat) : FluentOut σ ε :=
  match tgt.readModifyWrite s addr newData mask with
  | .error e =>
    { events := emitIf ip
        [.opStart "FluentRegisterTarget" tgt.name "ReadModifyWrite",
         .opError "FluentRegisterTarget" tgt.name e]
      calls := [.readModifyWrite addr newData mask]
      result := .failed e none }
  | .ok s' =>
    { events := emitIf ip
        [.opStart "FluentRegisterTarget" tgt.name "ReadModifyWrite",
         .opEnd "FluentRegisterTarget" tgt.name]
      calls := [.readModifyWrite addr newData mask]
      result := .ok [] s' }

/-- `FluentRegisterTarget::seqWrite` (RTF.h lines 499-512): one `opExtra`
per element before the underlying call. -/
def fluentSeqWrite (tgt : RegisterTarget σ ε) (ip : Bool) (s : σ)
    (start : Nat) (data : List Nat) (inc : Nat) : FluentOut σ ε :=
  match tgt.seqWrite s start data inc with
  | .error e =>
    { events := emitIf ip
        (.opStart "FluentRegisterTarget" tgt.name "SeqWrite" ::
          (extrasOf tgt.name data ++
            [.opError "FluentRegisterTarget" tgt.name e]))
      calls := [.seqWrite start data inc]
      result := .failed e none }
  | .ok s' =>
    { events := emitIf ip
        (.opStart "FluentRegisterTarget" tgt.name "SeqWrite" ::
          (extrasOf tgt.name data ++
            [.opEnd "FluentRegisterTarget" tgt.name]))
      calls := [.seqWrite start data inc]
      result := .ok [] s' }

/-- `FluentRegisterTarget::seqRead` (RTF.h lines 513-526): one `opExtra`
per element after the underlying call. -/
def fluentSeqRead (tgt : RegisterTarget σ ε) (ip : Bool) (s : σ)
    (start count inc : Nat) : FluentOut σ ε :=
  match tgt.seqRead s start count inc with
  | .error e =>
    { events := emitIf ip
        [.opStart "FluentRegisterTarget" tgt.name "SeqRead",
         .opError "FluentRegisterTarget" tgt.name e]
      calls := [.seqRead start count inc]
      result := .failed e none }
  | .ok (vs, s') =>
    { events := emitIf ip
        (.opStart "FluentRegisterTarget" tgt.name "SeqRead" ::
          (extrasOf tgt.name vs ++ [.opEnd "FluentRegisterTarget" tgt.name]))
      calls := [.seqRead start count inc]
      result := .ok vs s' }

/-- `FluentRegisterTarget::fifoWrite` (RTF.h lines 564-577): one
`opExtra` per element before the underlying call. -/
def fluentFifoWrite (tgt : RegisterTarget σ ε) (ip : Bool) (s : σ)
    (addr : Nat) (data : List Nat) : FluentOut σ ε :=
  match tgt.fifoWrite s addr data with
  | .error e =>
    { events := emitIf ip
        (.opStart "FluentRegisterTarget" tgt.name "FifoWrite" ::
          (extrasOf tgt.name data ++
            [.opError "FluentRegisterTarget" tgt.name e]))
      calls := [.fifoWrite addr data]
      result := .failed e none }
  | .ok s' =>
    { events := emitIf ip
        (.opStart "FluentRegisterTarget" tgt.name "FifoWrite" ::
          (extrasOf tgt.name data ++
            [.opEnd "FluentRegisterTarget" tgt.name]))
      calls := [.fifoWrite addr data]
      result := .ok [] s' }

/-- `FluentRegisterTarget::fifoRead` (RTF.h lines 578-591): one `opExtra`
per element after the underlying call. -/
def fluentFifoRead (tgt : RegisterTarget σ ε) (ip : Bool) (s : σ)
    (addr count : Nat) : FluentOut σ ε :=
  match tgt.fifoRead s addr count with
  | .error e =>
    { events := emitIf ip
        [.opStart "FluentRegisterTarget" tgt.name "FifoRead",
         .opError "FluentRegisterTarget" tgt.name e]
      calls := [.fifoRead addr count]
      result := .failed e none }
  | .ok (vs, s') =>
    { events := emitIf ip
        (.opStart "FluentRegisterTarget" tgt.name "FifoRead" ::
          (extrasOf tgt.name vs ++ [.opEnd "FluentRegisterTarget" tgt.name]))
      calls := [.fifoRead addr count]
      result := .ok vs s' }

/-- `FluentRegisterTarget::compWrite` (RTF.h lines 624-637): one
`opExtra` per pair before the underlying call. -/
def fluentCompWrite (tgt : RegisterTarget σ ε) (ip : Bool) (s : σ)
    (pairs : List (Nat × Nat)) : FluentOut σ ε :=
  match tgt.compWrite s pairs with
  | .error e =>
    { events := emitIf ip
        (.opStart "FluentRegisterTarget" tgt.name "CompWrite" ::
          (extrasOfPairs tgt.name pairs ++
            [.opError "FluentRegisterTarget" tgt.name e]))
      calls := [.compWrite pairs]
      result := .failed e none }
  | .ok s' =>
    { events := emitIf ip
        (.opStart "FluentRegisterTarget" tgt.name "CompWrite" ::
          (extrasOfPairs tgt.name pairs ++
            [.opEnd "FluentRegisterTarget" tgt.name]))
      calls := [.compWrite pairs]
      result := .ok [] s' }

/-- `FluentRegisterTarget::compRead` (RTF.h lines 638-652): one `opExtra`
per address before the underlying call, one per value after. -/
def fluentCompRead (tgt : RegisterTarget σ ε) (ip : Bool) (s : σ)
    (addrs : List Nat) (outLen : Nat) : FluentOut σ ε :=
  match tgt.compRead s addrs outLen with
  | .error e =>
    { events := emitIf ip
        (.opStart "FluentRegisterTarget" tgt.name "CompRead" ::
          (extrasOf tgt.name addrs ++
            [.opError "FluentRegisterTarget" tgt.name e]))
      calls := [.compRead addrs outLen]
      result := .failed e none }
  | .ok (vs, s') =>
    { events := emitIf ip
        (.opStart "FluentRegisterTarget" tgt.name "CompRead" ::
          (extrasOf tgt.name addrs ++ extrasOf tgt.name vs ++
            [.opEnd "FluentRegisterTarget" tgt.name]))
      calls := [.compRead addrs outLen]
      result := .ok vs s' }

/-- `FluentRegisterTarget::writeVerify` (RTF.h lines 654-670): write the
raw `data`, read back, and throw `WriteVerifyFailureException(data &
mask, mask, readback)` when `(readback & mask) != (data & mask)`. -/
def fluentWriteVerify (tgt : RegisterTarget σ ε) (ip : Bool) (s : σ)
    (addr data mask : Nat) : FluentOut σ ε :=
  match tgt.write s addr data with
  | .error e =>
    { events := emitIf ip
        [.opStart "FluentRegisterTarget" tgt.name "WriteVerify",
         .opError "FluentRegisterTarget" tgt.name e]
      calls := [.write addr data]
      result := .failed e none }
  | .ok s1 =>
    match tgt.read s1 addr with
    | .error e =>
      { events := emitIf ip
          [.opStart "FluentRegisterTarget" tgt.name "WriteVerify",
           .opError "FluentRegisterTarget" tgt.name e]
        calls := [.write addr data, .read addr]
        result := .failed e none }
    | .ok (regVal, s2) =>
      if regVal &&& mask ≠ data &&& mask then
        { events := emitIf ip
            [.opStart "FluentRegisterTarget" tgt.name "WriteVerify",
             .opError "FluentRegisterTarget" tgt.name
               (.writeVerifyFailure (data &&& mask) mask regVal)]
          calls := [.write addr data, .read addr]
          result := .failed (.writeVerifyFailure (data &&& mask) mask regVal)
            (some s2) }
      else
        { events := emitIf ip
            [.opStart "FluentRegisterTarget" tgt.name "WriteVerify",
             .opEnd "FluentRegisterTarget" tgt.name]
          calls := [.write addr data, .read addr]
          result := .ok [] s2 }

/-- `FluentRegisterTarget::readVerify` (RTF.h lines 693-708): read and
throw `ReadVerifyFailureException(expected & mask, mask, readback)` when
`(readback & mask) != (expected & mask)`. -/
def fluentReadVerify (tgt : RegisterTarget σ ε) (ip : Bool) (s : σ)
    (addr expected mask : Nat) : FluentOut σ ε :=
  match tgt.read s addr with
  | .error e =>
    { events := emitIf ip
        [.opStart "FluentRegisterTarget" tgt.name "ReadVerify",
         .opError "FluentRegisterTarget" tgt.name e]
      calls := [.read addr]
      result := .failed e none }
  | .ok (regVal, s') =>
    if regVal &&& mask ≠ expected &&& mask then
      { events := emitIf ip
          [.opStart "FluentRegisterTarget" tgt.name "ReadVerify",
           .opError "FluentRegisterTarget" tgt.name
             (.readVerifyFailure (expected &&& mask) mask regVal)]
        calls := [.read addr]
        result := .failed (.readVerifyFailure (expected &&& mask) mask regVal)
          (some s') }
    else
      { events := emitIf ip
          [.opStart "FluentRegisterTarget" tgt.name "ReadVerify",
           .opEnd "FluentRegisterTarget" tgt.name]
        calls := [.read addr]
        result := .ok [] s' }

/-- The check functor `pollRead` hands to the poller (RTF.h lines
754-757): read the register, remember the value read, record the call,
and report whether `(reg_val & mask) == expected_val`.  The poll state is
(target state, last value read, calls so far). -/
def pollReadCheck (tgt : RegisterTarget σ ε) (addr expectedVal mask : Nat) :
    σ × Nat × List TCall → PollStep (σ × Nat × List TCall) (Err ε) :=
  fun ps =>
    match tgt.read ps.1 addr with
    | .error e => .thrown e (ps.1, ps.2.1, ps.2.2 ++ [.read addr])
    | .ok (v, s') => .val ((v &&& mask) == expectedVal)
        (s', v, ps.2.2 ++ [.read addr])

/-- The poll loop run by `FluentRegisterTarget::pollRead` with a
`BasicPoller` `p` (RTF.h lines 747-767): `reg_val` starts at `{}` (zero)
and the polling clock starts at 0. -/
def pollReadLoop (tgt : RegisterTarget σ ε) (p : BasicPoller) (s : σ)
    (addr expected mask : Nat) : PollOut (σ × Nat × List TCall) (Err ε) :=
  p.runAt (pollReadCheck tgt addr (expected &&& mask) mask) 0 (s, 0, [])

/-- `FluentRegisterTarget::pollRead` (RTF.h lines 747-767), instantiated
with the shipped `BasicPoller` (the parameterless overload, line 768,
uses exactly such a poller): on timeout throw
`PollReadTimeoutException(expected & mask, mask, last value read)`. -/
def fluentPollRead (tgt : RegisterTarget σ ε) (ip : Bool) (p : BasicPoller)
    (s : σ) (addr expected mask : Nat) : FluentOut σ ε :=
  let L := pollReadLoop tgt p s addr expected mask
  match L.res with
  | .err e =>
    { events := emitIf ip
        [.opStart "FluentRegisterTarget" tgt.name "PollRead",
         .opError "FluentRegisterTarget" tgt.name e]
      calls := L.state.2.2
      result := .failed e none }
  | .success =>
    { events := emitIf ip
        [.opStart "FluentRegisterTarget" tgt.name "PollRead",
         .opEnd "FluentRegisterTarget" tgt.name]
      calls := L.state.2.2
      result := .ok [] L.state.1 }
  | .timedOut =>
    { events := emitIf ip
        [.opStart "FluentRegisterTarget" tgt.name "PollRead",
         .opError "FluentRegisterTarget" tgt.name
           (.pollTimeout (expected &&& mask) mask L.state.2.1)]
      calls := L.state.2.2
      result := .failed (.pollTimeout (expected &&& mask) mask L.state.2.1)
        (some L.state.1) }

/-- A call to one wrapped operation of `FluentRegisterTarget`, with its
arguments (the trailing message argument is immaterial to behaviour). -/
inductive FOp where
  | nullOp : FOp
  | delay (d : Nat) : FOp
  | write (addr data : Nat) : FOp
  | read (addr : Nat) : FOp
  | readModifyWrite (addr newData mask : Nat) : FOp
  | seqWrite (start : Nat) (data : List Nat) (inc : Nat) : FOp
  | seqRead (start count inc : Nat) : FOp
  | fifoWrite (addr : Nat) (data : List Nat) : FOp
  | fifoRead (addr count : Nat) : FOp
  | compWrite (pairs : List (Nat × Nat)) : FOp
  | compRead (addrs : List Nat) (outLen : Nat) : FOp
  | writeVerify (addr data mask : Nat) : FOp
  | readVerify (addr expected mask : Nat) : FOp
  | pollRead (p : BasicPoller) (addr expected mask : Nat) : FOp
  deriving DecidableEq, Repr

/-- Dispatch one wrapped operation. -/
def runFluentOp (op : FOp) (tgt : RegisterTarget σ ε) (ip : Bool) (s : σ) :
    FluentOut σ ε :=
  match op with
  | .nullOp => fluentNull tgt ip s
  | .delay d => fluentDelay tgt ip s d
  | .write addr data => fluentWrite tgt ip s addr data
  | .read addr => fluentRead tgt ip s addr
  | .readModifyWrite addr nd m => fluentReadModifyWrite tgt ip s addr nd m
  | .seqWrite start data inc => fluentSeqWrite tgt ip s start data inc
  | .seqRead start count inc => fluentSeqRead tgt ip s start count inc
  | .fifoWrite addr data => fluentFifoWrite tgt ip s addr data
  | .fifoRead addr count => fluentFifoRead tgt ip s addr count
  | .compWrite pairs => fluentCompWrite tgt ip s pairs
  | .compRead addrs outLen => fluentCompRead tgt ip s addrs outLen
  | .writeVerify addr data mask => fluentWriteVerify tgt ip s addr data mask
  | .readVerify addr expected mask => fluentReadVerify tgt ip s addr expected mask
  | .pollRead p addr expected mask => fluentPollRead tgt ip p s addr expected mask

/-! ### Default (base-class) implementations of the batch operations

These model the virtual-but-not-pure method bodies of `IRegisterTarget`
(RTF.h lines 49-95), which are loops of single `this->write` /
`this->read` calls.  `w` is the address width in bits: the address
`start_addr + increment * i` is computed in machine arithmetic and
truncated to `AddressType`, i.e. taken `% 2 ^ w`. -/

/-- The loop of `IRegisterTarget::seqWrite` (RTF.h lines 57-62), from
element index `i`, returning the primitive calls issued and the result. -/
def seqWriteLoop (tgt : RegisterTarget σ ε) (w start inc : Nat) :
    σ → List Nat → Nat → List TCall × Except (Err ε) σ
  | s, [], _ => ([], .ok s)
  | s, d :: rest, i =>
    let a := (start + inc * i) % 2 ^ w
    match tgt.write s a d with
    | .error e => ([.write a d], .error e)
    | .ok s' =>
      let (cs, r) := seqWriteLoop tgt w start inc s' rest (i + 1)
      (.write a d :: cs, r)

/-- `IRegisterTarget::seqWrite` (default implementation). -/
def seqWriteDefault (tgt : RegisterTarget σ ε) (w : Nat) (s : σ)
    (start : Nat) (data : List Nat) (inc : Nat) :
    List TCall × Except (Err ε) σ :=
  seqWriteLoop tgt w start inc s data 0

/-- The loop of `IRegisterTarget::seqRead` (RTF.h lines 63-68), from
element index `i`, for `count` elements: the calls issued, the values
read, and the result. -/
def seqReadLoop (tgt : RegisterTarget σ ε) (w start inc : Nat) :
    σ → Nat → Nat → List TCall × List Nat × Except (Err ε) σ
  | s, 0, _ => ([], [], .ok s)
  | s, count + 1, i =>
    let a := (start + inc * i) % 2 ^ w
    match tgt.read s a with
    | .error e => ([.read a], [], .error e)
    | .ok (v, s') =>
      let (cs, vs, r) := seqReadLoop tgt w start inc s' count (i + 1)
      (.read a :: cs, v :: vs, r)

/-- `IRegisterTarget::seqRead` (default implementation), for an
out-buffer of length `count`. -/
def seqReadDefault (tgt : RegisterTarget σ ε) (w : Nat) (s : σ)
    (start count inc : Nat) : List TCall × List Nat × Except (Err ε) σ :=
  seqReadLoop tgt w start inc s count 0

/-- Issuing a list of direct single writes, in order, stopping at the
first failure (the comparison object of the spec sentence "equivalent to
three direct single writes"). -/
def singleWrites (tgt : RegisterTarget σ ε) :
    σ → List (Nat × Nat) → List TCall × Except (Err ε) σ
  | s, [] => ([], .ok s)
  | s, (a, d) :: rest =>
    match tgt.write s a d with
    | .error e => ([.write a d], .error e)
    | .ok s' =>
      let (cs, r) := singleWrites tgt s' rest
      (.write a d :: cs, r)

/-- Issuing a list of direct single reads, in order, stopping at the
first failure. -/
def singleReads (tgt : RegisterTarget σ ε) :
    σ → List Nat → List TCall × List Nat × Except (Err ε) σ
  | s, [] => ([], [], .ok s)
  | s, a :: rest =>
    match tgt.read s a with
    | .error e => ([.read a], [], .error e)
    | .ok (v, s') =>
      let (cs, vs, r) := singleReads tgt s' rest
      (.read a :: cs, v :: vs, r)

/-- The per-element (address, data) pairs of a sequential write: element
`i` goes to machine address `(start + inc * i) % 2 ^ w`.  This
definition follows the spec's words. -/
def seqWriteAddrs (w start inc : Nat) (data : List Nat) :
    List (Nat × Nat) :=
  data.enum.map fun p => ((start + inc * p.1) % 2 ^ w, p.2)

/-- The per-element addresses of a sequential read of `count` elements.
This definition follows the spec's words. -/
def seqReadAddrs (w start inc count : Nat) : List Nat :=
  (List.range count).map fun i => (start + inc * i) % 2 ^ w

/-- The loop of `IRegisterTarget::compRead` (RTF.h lines 92-94): one
read per address, in input order; the values read so far are kept even
when a later read fails (they were already stored into `out_data`). -/
def compReadLoop (tgt : RegisterTarget σ ε) :
    σ → List Nat → List TCall × List Nat × Except (Err ε) σ
  | s, [] => ([], [], .ok s)
  | s, a :: rest =>
    match tgt.read s a with
    | .error e => ([.read a], [], .error e)
    | .ok (v, s') =>
      let (cs, vs, r) := compReadLoop tgt s' rest
      (.read a :: cs, v :: vs, r)

/-- `IRegisterTarget::compRead` (RTF.h lines 89-95): the
`assert(addresses.size() == out_data.size())` argument-count check fires
before any read; modelled as an `argumentError` exception.  Returns the
calls issued, the final contents of the out-buffer, and the result. -/
def compReadDefault (tgt : RegisterTarget σ ε) (s : σ)
    (addrs out : List Nat) : List TCall × List Nat × Except (Err ε) σ :=
  if addrs.length = out.length then
    let (cs, vs, r) := compReadLoop tgt s addrs
    (cs, vs ++ out.drop vs.length, r)
  else
    ([], out, .error (.argumentError addrs.length out.length))

/-! ### The chunkify helper

`chunkify` (newer header variant, `src/unnamed/part_001` lines
1484-1495) iterates `pos` over the buffer, emitting
`(buffer.subspan(pos, min(max_chunk_size, size - pos)), pos)` and
advancing `pos` by the chunk size.  When `max_chunk_size = 0` and the
buffer is non-empty the position never advances and the source loop runs
forever; the model makes this observable by running on fuel and
returning `none` exactly when the fuel is exhausted with the loop still
unfinished. -/

/-- One iteration's advance of the loop position of `chunkify`:
`pos += min(max_chunk_size, buffer.size() - pos)`. -/
def chunkStep (size maxChunk pos : Nat) : Nat :=
  pos + min maxChunk (size - pos)

/-- The `chunkify` loop on fuel: the emitted `(chunk, pos)` pairs in
order, or `none` if the fuel ran out before `pos` reached the end. -/
def chunkifyF (buf : List α) (maxChunk : Nat) :
    Nat → Nat → Option (List (List α × Nat))
  | pos, 0 => if pos < buf.length then none else some []
  | pos, fuel + 1 =>
    if pos < buf.length then
      let csize := min maxChunk (buf.length - pos)
      let chunk := (buf.drop pos).take csize
      match chunkifyF buf maxChunk (pos + csize) fuel with
      | some rest => some ((chunk, pos) :: rest)
      | none => none
    else
      some []

/-- `chunkify` with its canonical fuel `buffer.length + 1`, which is
always sufficient when `max_chunk_size ≥ 1` (each iteration then
advances `pos` by at least one). -/
def chunkify (buf : List α) (maxChunk : Nat) :
    Option (List (List α × Nat)) :=
  chunkifyF buf maxChunk 0 (buf.length + 1)

/-! ### Concrete targets

`dummyTarget` models `SimpleDummyRegisterTarget` (RTF_SimpleDummyTarget.h):
a register store that echoes back whatever was written (`regs[addr] =
data`; `read` returns `regs[addr]`, default 0), instantiated at 64-bit
address/data types, with the batch operations inheriting the base-class
per-element behaviour.  `failTarget` is a target whose every method
throws, and `clearOnReadTarget` a target whose read clears the register
it reads (a clear-on-read hardware register). -/

/-- Update one register of a register store. -/
def storeWrite (s : Nat → Nat) (a d : Nat) : Nat → Nat :=
  fun x => if x = a then d else s x

/-- The base-class sequential write loop acting on a register store. -/
def seqStoreWrite : (Nat → Nat) → Nat → List Nat → Nat → Nat → (Nat → Nat)
  | s, _, [], _, _ => s
  | s, start, d :: rest, inc, i =>
    seqStoreWrite (storeWrite s ((start + inc * i) % 2 ^ 64) d) start rest
      inc (i + 1)

/-- The base-class sequential read loop acting on a register store. -/
def seqStoreRead (s : Nat → Nat) (start inc : Nat) : Nat → Nat → List Nat
  | 0, _ => []
  | count + 1, i =>
    s ((start + inc * i) % 2 ^ 64) :: seqStoreRead s start inc count (i + 1)

/-- A faithful model of `SimpleDummyRegisterTarget<uint64_t, uint64_t>`
named `dummy0`: `getDomain()` returns `"SimpleDummyRegisterTarget"`. -/
def dummyTarget : RegisterTarget (Nat → Nat) Unit where
  name := "dummy0"
  domain := "SimpleDummyRegisterTarget"
  write := fun s a d => .ok (storeWrite s a d)
  read := fun s a => .ok (s a, s)
  readModifyWrite := fun s a nd m =>
    .ok (storeWrite s a ((s a &&& (m ^^^ (2 ^ 64 - 1))) ||| (nd &&& m)))
  seqWrite := fun s start data inc => .ok (seqStoreWrite s start data inc 0)
  seqRead := fun s start count inc =>
    .ok (seqStoreRead s start inc count 0, s)
  fifoWrite := fun s addr data =>
    .ok (data.foldl (fun t d => storeWrite t addr d) s)
  fifoRead := fun s addr count => .ok (List.replicate count (s addr), s)
  compWrite := fun s pairs =>
    .ok (pairs.foldl (fun t ad => storeWrite t ad.1 ad.2) s)
  compRead := fun s addrs outLen =>
    if addrs.length = outLen then .ok (addrs.map s, s)
    else .error (.argumentError addrs.length outLen)

/-- The all-zero initial register store. -/
def zeroStore : Nat → Nat := fun _ => 0

/-- A target whose every operation throws a device exception. -/
def failTarget : RegisterTarget (Nat → Nat) Unit where
  name := "fail0"
  domain := "FailTarget"
  write := fun _ _ _ => .error (.dev ())
  read := fun _ _ => .error (.dev ())
  readModifyWrite := fun _ _ _ _ => .error (.dev ())
  seqWrite := fun _ _ _ _ => .error (.dev ())
  seqRead := fun _ _ _ _ => .error (.dev ())
  fifoWrite := fun _ _ _ => .error (.dev ())
  fifoRead := fun _ _ _ => .error (.dev ())
  compWrite := fun _ _ => .error (.dev ())
  compRead := fun _ _ _ => .error (.dev ())

/-- A target with clear-on-read registers: reading a register returns its
value and resets it to zero.  Writes store normally. -/
def clearOnReadTarget : RegisterTarget (Nat → Nat) Unit where
  name := "cor0"
  domain := "ClearOnReadTarget"
  write := fun s a d => .ok (storeWrite s a d)
  read := fun s a => .ok (s a, storeWrite s a 0)
  readModifyWrite := fun s a nd m =>
    .ok (storeWrite s a ((s a &&& (m ^^^ (2 ^ 64 - 1))) ||| (nd &&& m)))
  seqWrite := fun s start data inc => .ok (seqStoreWrite s start data inc 0)
  seqRead := fun s start count inc =>
    .ok (seqStoreRead s start inc count 0, s)
  fifoWrite := fun s addr data =>
    .ok (data.foldl (fun t d => storeWrite t addr d) s)
  fifoRead := fun s addr count => .ok (List.replicate count (s addr), s)
  compWrite := fun s pairs =>
    .ok (pairs.foldl (fun t ad => storeWrite t ad.1 ad.2) s)
  compRead := fun s addrs outLen =>
    if addrs.length = outLen then .ok (addrs.map s, s)
    else .error (.argumentError addrs.length outLen)

/-! ### Lemmas about chunkify -/

/-- Once the position has reached the end of the buffer, `chunkify`'s
loop exits immediately with no further emissions, at every fuel. -/
theorem chunkifyF_at_end (buf : List α) (maxChunk : Nat) (fuel pos : Nat)
    (h : ¬ pos < buf.length) :
    chunkifyF buf maxChunk pos fuel = some [] := by
  cases fuel <;> simp [chunkifyF, h]

/-- While the position is strictly inside the buffer, a finished
`chunkify` loop has emitted at least one chunk. -/
theorem chunkifyF_ne_nil (buf : List α) (maxChunk : Nat) (fuel pos : Nat)
    (out : List (List α × Nat)) (h : pos < buf.length)
    (he : chunkifyF buf maxChunk pos fuel = some out) : out ≠ [] := by
  cases fuel with
  | zero => simp [chunkifyF, h] at he
  | succ fuel =>
    simp only [chunkifyF, if_pos h] at he
    cases hx : chunkifyF buf maxChunk
        (pos + min maxChunk (buf.length - pos)) fuel with
    | none => rw [hx] at he; simp at he
    | some rest =>
      rw [hx] at he
      simp only [Option.some.injEq] at he
      subst he
      simp

/-- With a positive chunk size, fuel exceeding the number of remaining
elements suffices for `chunkify`'s loop to finish. -/
theorem chunkifyF_isSome (buf : List α) (maxChunk : Nat)
    (hm : 1 ≤ maxChunk) :
    ∀ fuel pos, buf.length - pos < fuel →
      (chunkifyF buf maxChunk pos fuel).isSome = true := by
  intro fuel
  induction fuel with
  | zero => intro pos h; omega
  | succ fuel ih =>
    intro pos h
    by_cases hp : pos < buf.length
    · have hc : 1 ≤ min maxChunk (buf.length - pos) := le_min hm (by omega)
      have hrec := ih (pos + min maxChunk (buf.length - pos)) (by omega)
      simp only [chunkifyF, if_pos hp]
      cases hx : chunkifyF buf maxChunk
          (pos + min maxChunk (buf.length - pos)) fuel with
      | none => rw [hx] at hrec; simp at hrec
      | some rest => simp
    · simp [chunkifyF, hp]

/-- The conclusion of the chunking claim, relative to the loop position:
concatenating the emitted chunks restores the rest of the buffer; every
chunk except possibly the last is exactly the chunk size; every offset is
the position plus the total length of the chunks before it; the offsets
are strictly increasing. -/
theorem chunkifyF_spec (buf : List α) (maxChunk : Nat) (hm : 1 ≤ maxChunk) :
    ∀ fuel pos out, chunkifyF buf maxChunk pos fuel = some out →
      ((out.map Prod.fst).flatten = buf.drop pos
        ∧ (∀ i, i + 1 < out.length → (out.getD i ([], 0)).1.length = maxChunk)
        ∧ (∀ i, i < out.length →
            (out.getD i ([], 0)).2 =
              pos + (((out.take i).map fun c => c.1.length).sum))
        ∧ List.Chain' (· < ·) (out.map Prod.snd)) := by
  intro fuel
  induction fuel with
  | zero =>
    intro pos out he
    by_cases hp : pos < buf.length
    · simp [chunkifyF, hp] at he
    · simp [chunkifyF, hp] at he
      subst he
      refine ⟨?_, by simp, by simp, by simp⟩
      rw [List.drop_eq_nil_of_le (by omega)]
      simp
  | succ fuel ih =>
    intro pos out he
    by_cases hp : pos < buf.length
    · simp only [chunkifyF, if_pos hp] at he
      cases hx : chunkifyF buf maxChunk
          (pos + min maxChunk (buf.length - pos)) fuel with
      | none => rw [hx] at he; simp at he
      | some rest =>
        rw [hx] at he
        simp only [Option.some.injEq] at he
        obtain ⟨hflat, hlen, hoff, hchain⟩ :=
          ih (pos + min maxChunk (buf.length - pos)) rest hx
        set csize := min maxChunk (buf.length - pos) with hcs
        have hc1 : 1 ≤ csize := le_min hm (by omega)
        have hclen : ((buf.drop pos).take csize).length = csize := by
          simp [List.length_take, List.length_drop]
          omega
        subst he
        refine ⟨?_, ?_, ?_, ?_⟩
        · simp only [List.map_cons, List.flatten_cons, hflat]
          rw [← List.drop_drop, List.take_append_drop]
        · intro i hi
          match i with
          | 0 =>
            simp only [List.getD_cons_zero]
            rw [hclen]
            by_contra hne
            have hcs2 : csize = buf.length - pos := by omega
            have hend : rest = [] := by
              have := chunkifyF_at_end buf maxChunk fuel
                (pos + csize) (by omega)
              rw [this] at hx
              simpa using hx.symm
            simp [hend] at hi
          | i + 1 =>
            simp only [List.getD_cons_succ]
            exact hlen i (by simpa using hi)
        · intro i hi
          match i with
          | 0 => simp
          | i + 1 =>
            simp only [List.getD_cons_succ, List.take_succ_cons,
              List.map_cons, List.sum_cons]
            rw [hoff i (by simpa using hi), hclen]
            omega
        · simp only [List.map_cons]
          rw [List.chain'_cons']
          refine ⟨?_, hchain⟩
          intro y hy
          match rest, hy with
          | (c0, p0) :: rest', hy =>
            simp at hy
            have h0 := hoff 0 (by simp)
            simp at h0
            omega
    · rw [chunkifyF_at_end buf maxChunk (fuel + 1) pos hp] at he
      simp at he
      subst he
      refine ⟨?_, by simp, by simp, by simp⟩
      rw [List.drop_eq_nil_of_le (by omega)]
      simp

/-- With chunk size zero and the position inside the buffer, `chunkify`'s
loop never finishes: every fuel is exhausted. -/
theorem chunkifyF_zero_none (buf : List α) :
    ∀ fuel pos, pos < buf.length → chunkifyF buf 0 pos fuel = none := by
  intro fuel
  induction fuel with
  | zero => intro pos h; simp [chunkifyF, h]
  | succ fuel ih =>
    intro pos h
    simp only [chunkifyF, if_pos h, Nat.zero_min, Nat.add_zero]
    rw [ih pos h]

/-- The chunking claim's conclusion for a complete run: concatenation
restores the input, all chunks but possibly the last have exactly the
chunk size, each offset is the total length of the preceding chunks
(hence offsets are contiguous and start at 0), and offsets strictly
increase. -/
def chunkSpec (buf : List α) (maxChunk : Nat)
    (out : List (List α × Nat)) : Prop :=
  (out.map Prod.fst).flatten = buf
  ∧ (∀ i, i + 1 < out.length → (out.getD i ([], 0)).1.length = maxChunk)
  ∧ (∀ i, i < out.length →
      (out.getD i ([], 0)).2 = (((out.take i).map fun c => c.1.length).sum))
  ∧ List.Chain' (· < ·) (out.map Prod.snd)

/-! ### Claims C3, C4, C9 -/

/-- C3: a `compRead` whose address count differs from its out-buffer
length fails immediately with the argument-count error, before any I/O:
no call is made on the underlying target and the out-buffer is returned
unmodified. -/
theorem compRead_length_mismatch (tgt : RegisterTarget σ ε) (s : σ)
    (addrs out : List Nat) (h : addrs.length ≠ out.length) :
    compReadDefault tgt s addrs out =
      ([], out, .error (.argumentError addrs.length out.length)) := by
  simp [compReadDefault, h]

/-- C3 witness: three addresses against a two-element out-buffer fail
with the argument-count error, no reads, buffer untouched. -/
theorem compRead_length_mismatch_witness :
    compReadDefault dummyTarget zeroStore [1, 2, 3] [0, 0] =
      ([], [0, 0], .error (.argumentError 3 2)) :=
  compRead_length_mismatch dummyTarget zeroStore [1, 2, 3] [0, 0] (by decide)

/-- C4 counterexample: with chunk size 0 and the non-empty buffer `[0]`,
the source loop never terminates (`pos` never advances), so the
algorithm produces no output at all — `chunkify` returns `none` at its
canonical fuel (and, by `chunkify_termination`, at every fuel) — and in
particular no output whose concatenation reproduces the input exists.
This refutes the claim's "for any sequence and chunk size". -/
theorem chunkify_zero_chunk_counterexample :
    chunkify [(0 : Nat)] 0 = none := by decide

/-- C4 (amended: for any chunk size ≥ 1): chunkify terminates and
produces, in order, chunks whose concatenation reproduces the input;
every chunk except possibly the last has length equal to the chunk size;
each offset equals the total length of the preceding chunks (hence the
offsets are contiguous and start at 0) and the offsets strictly
increase. -/
theorem chunkify_spec_pos (buf : List α) (maxChunk : Nat)
    (hm : 1 ≤ maxChunk) :
    ∃ out, chunkify buf maxChunk = some out ∧ chunkSpec buf maxChunk out := by
  have h1 := chunkifyF_isSome buf maxChunk hm (buf.length + 1) 0 (by omega)
  rw [Option.isSome_iff_exists] at h1
  obtain ⟨out, hout⟩ := h1
  have h2 := chunkifyF_spec buf maxChunk hm (buf.length + 1) 0 out hout
  exact ⟨out, hout, by simpa [chunkSpec] using h2⟩

/-- C4 witness: chunking `[1,2,3,4,5]` with chunk size 2 yields a
complete output satisfying the chunking specification. -/
theorem chunkify_spec_pos_witness :
    ∃ out, chunkify [(1 : Nat), 2, 3, 4, 5] 2 = some out
      ∧ chunkSpec [(1 : Nat), 2, 3, 4, 5] 2 out :=
  chunkify_spec_pos [(1 : Nat), 2, 3, 4, 5] 2 (by decide)

/-- C9: chunkify terminates for every buffer when the chunk size is
positive, and for the empty buffer at any chunk size (emitting nothing);
with chunk size 0 and a non-empty buffer the loop position never
advances and the loop never finishes — fuel exhaustion at every fuel. -/
theorem chunkify_termination (α : Type) :
    (∀ (buf : List α) maxChunk, 1 ≤ maxChunk →
        (chunkify buf maxChunk).isSome = true)
    ∧ (∀ maxChunk, chunkify ([] : List α) maxChunk = some [])
    ∧ (∀ (buf : List α), buf ≠ [] → ∀ fuel, chunkifyF buf 0 0 fuel = none)
    ∧ (∀ size pos, pos < size → chunkStep size 0 pos = pos) := by
  refine ⟨?_, ?_, ?_, ?_⟩
  · intro buf m hm
    exact chunkifyF_isSome buf m hm (buf.length + 1) 0 (by omega)
  · intro m
    simp [chunkify, chunkifyF]
  · intro buf hb fuel
    apply chunkifyF_zero_none
    cases buf with
    | nil => simp at hb
    | cons a l => simp
  · intro size pos h
    simp [chunkStep]

/-- C9 witness: concrete instances of all four parts of the termination
claim. -/
theorem chunkify_termination_witness :
    (chunkify [(1 : Nat), 2, 3] 2).isSome = true
    ∧ chunkify ([] : List Nat) 5 = some []
    ∧ chunkifyF [(7 : Nat)] 0 0 3 = none
    ∧ chunkStep 1 0 0 = 0 :=
  ⟨(chunkify_termination Nat).1 [1, 2, 3] 2 (by decide),
   (chunkify_termination Nat).2.1 5,
   (chunkify_termination Nat).2.2.1 [7] (by decide) 3,
   (chunkify_termination Nat).2.2.2 1 0 (by decide)⟩

/-! ### Lemmas for the sequential-access equivalence (C7) -/

/-- When a run of direct single writes succeeds, the calls it issued are
exactly one write per pair, in order. -/
theorem singleWrites_calls (tgt : RegisterTarget σ ε) :
    ∀ (pairs : List (Nat × Nat)) (s : σ) (s' : σ),
      (singleWrites tgt s pairs).2 = .ok s' →
      (singleWrites tgt s pairs).1 = pairs.map fun p => TCall.write p.1 p.2 := by
  intro pairs
  induction pairs with
  | nil => intro s s' _; simp [singleWrites]
  | cons p rest ih =>
    intro s s' h
    obtain ⟨a, d⟩ := p
    simp only [singleWrites] at h ⊢
    cases hw : tgt.write s a d with
    | error e =>
      rw [hw] at h
      simp at h
    | ok s1 =>
      rw [hw] at h
      simp only [List.map_cons] at h ⊢
      rw [ih s1 s' h]

/-- When a run of direct single reads succeeds, the calls it issued are
exactly one read per address, in order. -/
theorem singleReads_calls (tgt : RegisterTarget σ ε) :
    ∀ (addrs : List Nat) (s : σ) (s' : σ),
      (singleReads tgt s addrs).2.2 = .ok s' →
      (singleReads tgt s addrs).1 = addrs.map fun a => TCall.read a := by
  intro addrs
  induction addrs with
  | nil => intro s s' _; simp [singleReads]
  | cons a rest ih =>
    intro s s' h
    simp only [singleReads] at h ⊢
    cases hw : tgt.read s a with
    | error e =>
      rw [hw] at h
      simp at h
    | ok vs1 =>
      obtain ⟨v, s1⟩ := vs1
      rw [hw] at h
      simp only [List.map_cons] at h ⊢
      rw [ih s1 s' h]

/-- The default sequential write loop, started at element index `i`,
coincides with issuing the direct single writes at the element addresses
`(start + inc * j) % 2 ^ w`. -/
theorem seqWriteLoop_eq_singleWrites (tgt : RegisterTarget σ ε)
    (w start inc : Nat) :
    ∀ (data : List Nat) (s : σ) (i : Nat),
      seqWriteLoop tgt w start inc s data i =
        singleWrites tgt s ((List.enumFrom i data).map
          fun p => ((start + inc * p.1) % 2 ^ w, p.2)) := by
  intro data
  induction data with
  | nil => intro s i; simp [seqWriteLoop, singleWrites]
  | cons d rest ih =>
    intro s i
    simp only [seqWriteLoop, List.enumFrom_cons, List.map_cons, singleWrites]
    cases hw : tgt.write s ((start + inc * i) % 2 ^ w) d with
    | error e => simp
    | ok s1 => simp [ih s1 (i + 1)]

/-- The default sequential read loop, started at element index `i`,
coincides with issuing the direct single reads at the element
addresses. -/
theorem seqReadLoop_eq_singleReads (tgt : RegisterTarget σ ε)
    (w start inc : Nat) :
    ∀ (count : Nat) (s : σ) (i : Nat),
      seqReadLoop tgt w start inc s count i =
        singleReads tgt s ((List.range' i count).map
          fun j => (start + inc * j) % 2 ^ w) := by
  intro count
  induction count with
  | zero => intro s i; simp [seqReadLoop, singleReads]
  | succ count ih =>
    intro s i
    simp only [seqReadLoop, List.range'_succ, List.map_cons, singleReads]
    cases hw : tgt.read s ((start + inc * i) % 2 ^ w) with
    | error e => simp
    | ok vs1 => obtain ⟨v, s1⟩ := vs1; simp [ih s1 (i + 1)]

/-- C7: the default `seqWrite` is observably equal to issuing the
corresponding direct single writes, one per element, at machine address
`(start + increment * index) % 2 ^ w`, in strictly increasing index
order — same target-call trace and same outcome — and on success its
call trace is exactly one write per element at those addresses, in
order; likewise the default `seqRead` equals the corresponding direct
single reads and on success issues exactly one read per element in
index order. -/
theorem seq_default_equiv_single (tgt : RegisterTarget σ ε) (w : Nat)
    (s : σ) (start : Nat) (data : List Nat) (inc count : Nat) :
    (seqWriteDefault tgt w s start data inc =
        singleWrites tgt s (seqWriteAddrs w start inc data))
    ∧ (∀ s', (seqWriteDefault tgt w s start data inc).2 = .ok s' →
        (seqWriteDefault tgt w s start data inc).1 =
          (seqWriteAddrs w start inc data).map fun p => TCall.write p.1 p.2)
    ∧ (seqReadDefault tgt w s start count inc =
        singleReads tgt s ((seqReadAddrs w start inc count)))
    ∧ (∀ s', (seqReadDefault tgt w s start count inc).2.2 = .ok s' →
        (seqReadDefault tgt w s start count inc).1 =
          (seqReadAddrs w start inc count).map fun a => TCall.read a) := by
  have hw : seqWriteDefault tgt w s start data inc =
      singleWrites tgt s (seqWriteAddrs w start inc data) := by
    rw [seqWriteDefault, seqWriteLoop_eq_singleWrites, seqWriteAddrs,
      List.enum_eq_enumFrom]
  have hr : seqReadDefault tgt w s start count inc =
      singleReads tgt s (seqReadAddrs w start inc count) := by
    rw [seqReadDefault, seqReadLoop_eq_singleReads, seqReadAddrs,
      List.range_eq_range']
  refine ⟨hw, ?_, hr, ?_⟩
  · intro s' h
    rw [hw] at h ⊢
    exact singleWrites_calls tgt _ s s' h
  · intro s' h
    rw [hr] at h ⊢
    exact singleReads_calls tgt _ s s' h

/-- C7 witness: `seqWrite(0x100, [10,11,12], 4)` on the dummy target
issues exactly the three direct writes to 0x100, 0x104, 0x108 in order,
and `seqRead(0x100, 3, 4)` the three direct reads. -/
theorem seq_default_equiv_single_witness :
    (seqWriteDefault dummyTarget 32 zeroStore 256 [10, 11, 12] 4).1 =
      [TCall.write 256 10, TCall.write 260 11, TCall.write 264 12]
    ∧ (seqReadDefault dummyTarget 32 zeroStore 256 3 4).1 =
      [TCall.read 256, TCall.read 260, TCall.read 264] := by
  have h := seq_default_equiv_single dummyTarget 32 zeroStore 256
    [10, 11, 12] 4 3
  refine ⟨?_, ?_⟩
  · rw [h.2.1 (storeWrite (storeWrite (storeWrite zeroStore 256 10) 260 11)
      264 12) (by rfl)]
    decide
  · rw [h.2.2.2 zeroStore (by rfl)]
    decide

/-! ### Lemmas about the BasicPoller loop -/

/-- The poll loop always evaluates the check functor at least once (the
loop body is a do-while). -/
theorem basicPollLoop_evals_ge (wait timeout start : Nat)
    (fn : σp → PollStep σp ε) :
    ∀ now s evals,
      evals + 1 ≤ (basicPollLoop wait timeout start fn now s evals).evals := by
  intro now s evals
  induction now, s, evals using basicPollLoop.induct wait timeout start fn with
  | case1 now s evals e s' hfn => rw [basicPollLoop]; simp [hfn]
  | case2 now s evals s' hfn => rw [basicPollLoop]; simp [hfn]
  | case3 now s evals s' hfn hlt ih =>
    rw [basicPollLoop]; simp only [hfn]; rw [dif_pos hlt]; omega
  | case4 now s evals s' hfn hlt =>
    rw [basicPollLoop]; simp only [hfn]; rw [dif_neg hlt]

/-- Shifting the start-of-budget timestamp and the current clock by the
same amount shifts only the end timestamp of the poll loop: verdict,
final state and evaluation count are unchanged. -/
theorem basicPollLoop_shift (wait timeout d : Nat)
    (fn : σp → PollStep σp ε) (start : Nat) :
    ∀ now s evals,
      basicPollLoop wait timeout (start + d) fn (now + d) s evals =
        ⟨(basicPollLoop wait timeout start fn now s evals).evals,
         (basicPollLoop wait timeout start fn now s evals).endTime + d,
         (basicPollLoop wait timeout start fn now s evals).res,
         (basicPollLoop wait timeout start fn now s evals).state⟩ := by
  intro now s evals
  induction now, s, evals using basicPollLoop.induct wait timeout start fn with
  | case1 now s evals e s' hfn =>
    rw [basicPollLoop, basicPollLoop]; simp [hfn]
  | case2 now s evals s' hfn =>
    rw [basicPollLoop, basicPollLoop]; simp [hfn]
  | case3 now s evals s' hfn hlt ih =>
    rw [basicPollLoop, basicPollLoop]
    simp only [hfn]
    rw [dif_pos hlt, dif_pos (by omega : now + d + wait + 1 < start + d + timeout)]
    have he : now + d + wait + 1 = now + wait + 1 + d := by omega
    rw [he, ih]
  | case4 now s evals s' hfn hlt =>
    rw [basicPollLoop, basicPollLoop]
    simp only [hfn]
    rw [dif_neg hlt, dif_neg (by omega : ¬ now + d + wait + 1 < start + d + timeout)]
    simp
    omega

/-- The poll loop's verdict is determined by the last evaluation of the
check functor: a `success` verdict comes from an evaluation that
returned `true` and produced the final state, a `timedOut` verdict from
one that returned `false`, and an `err` verdict from one that threw that
exception. -/
theorem basicPollLoop_exit (wait timeout start : Nat)
    (fn : σp → PollStep σp ε) :
    ∀ now s evals,
      ((basicPollLoop wait timeout start fn now s evals).res = .success →
        ∃ ps, fn ps = .val true
          (basicPollLoop wait timeout start fn now s evals).state)
      ∧ ((basicPollLoop wait timeout start fn now s evals).res = .timedOut →
        ∃ ps, fn ps = .val false
          (basicPollLoop wait timeout start fn now s evals).state)
      ∧ (∀ e, (basicPollLoop wait timeout start fn now s evals).res = .err e →
        ∃ ps, fn ps = .thrown e
          (basicPollLoop wait timeout start fn now s evals).state) := by
  intro now s evals
  induction now, s, evals using basicPollLoop.induct wait timeout start fn with
  | case1 now s evals e s' hfn =>
    rw [basicPollLoop]
    simp only [hfn]
    refine ⟨?_, ?_, ?_⟩
    · intro h; exact absurd h (by simp)
    · intro h; exact absurd h (by simp)
    · intro e' h
      have he : e = e' := by simpa using h
      subst he
      exact ⟨s, hfn⟩
  | case2 now s evals s' hfn =>
    rw [basicPollLoop]
    simp only [hfn]
    refine ⟨?_, ?_, ?_⟩
    · intro _; exact ⟨s, hfn⟩
    · intro h; exact absurd h (by simp)
    · intro e' h; exact absurd h (by simp)
  | case3 now s evals s' hfn hlt ih =>
    rw [basicPollLoop]
    simp only [hfn]
    rw [dif_pos hlt]
    exact ih
  | case4 now s evals s' hfn hlt =>
    rw [basicPollLoop]
    simp only [hfn]
    rw [dif_neg hlt]
    refine ⟨?_, ?_, ?_⟩
    · intro h; exact absurd h (by simp)
    · intro _; exact ⟨s, hfn⟩
    · intro e' h; exact absurd h (by simp)

/-- A state invariant preserved by every evaluation of the check functor
is preserved by the whole poll loop. -/
theorem basicPollLoop_inv (wait timeout start : Nat)
    (fn : σp → PollStep σp ε) (P : σp → Prop)
    (hval : ∀ ps b ps', fn ps = .val b ps' → P ps → P ps')
    (hthr : ∀ ps e ps', fn ps = .thrown e ps' → P ps → P ps') :
    ∀ now s evals, P s →
      P (basicPollLoop wait timeout start fn now s evals).state := by
  intro now s evals
  induction now, s, evals using basicPollLoop.induct wait timeout start fn with
  | case1 now s evals e s' hfn =>
    intro hp
    rw [basicPollLoop]
    simp only [hfn]
    exact hthr s e s' hfn hp
  | case2 now s evals s' hfn =>
    intro hp
    rw [basicPollLoop]
    simp only [hfn]
    exact hval s true s' hfn hp
  | case3 now s evals s' hfn hlt ih =>
    intro hp
    rw [basicPollLoop]
    simp only [hfn]
    rw [dif_pos hlt]
    exact ih (hval s false s' hfn hp)
  | case4 now s evals s' hfn hlt =>
    intro hp
    rw [basicPollLoop]
    simp only [hfn]
    rw [dif_neg hlt]
    exact hval s false s' hfn hp

/-- C8: the `BasicPoller` evaluates the check functor at least once
regardless of the configured timeout; with timeout 0 it evaluates it
exactly once; when the first evaluation yields `true` it returns success
immediately — one evaluation, at the start timestamp `t0 +
initial_delay`, which is taken only after the initial delay has elapsed;
and the whole observable behaviour (evaluation count, verdict, final
state) is independent of the initial delay, i.e. the timeout budget
excludes the initial delay. -/
theorem basicPoller_semantics (p : BasicPoller) (fn : σp → PollStep σp ε)
    (t0 : Nat) (s : σp) :
    (1 ≤ (p.runAt fn t0 s).evals)
    ∧ (p.timeout = 0 → (p.runAt fn t0 s).evals = 1)
    ∧ (∀ s', fn s = .val true s' →
        p.runAt fn t0 s = ⟨1, t0 + p.initialDelay, .success, s'⟩)
    ∧ (∀ q : BasicPoller, q.waitDelay = p.waitDelay → q.timeout = p.timeout →
        ((q.runAt fn t0 s).evals = (p.runAt fn t0 s).evals
          ∧ (q.runAt fn t0 s).res = (p.runAt fn t0 s).res
          ∧ (q.runAt fn t0 s).state = (p.runAt fn t0 s).state)) := by
  refine ⟨?_, ?_, ?_, ?_⟩
  · exact basicPollLoop_evals_ge _ _ _ fn _ s 0
  · intro ht
    rw [BasicPoller.runAt, basicPollLoop]
    cases hfn : fn s with
    | thrown e s' => simp [hfn]
    | val b s' =>
      cases b
      · simp only [hfn]
        rw [dif_neg (by omega :
          ¬ t0 + p.initialDelay + p.waitDelay + 1 <
            t0 + p.initialDelay + p.timeout)]
      · simp [hfn]
  · intro s' hfn
    rw [BasicPoller.runAt, basicPollLoop]
    simp [hfn]
  · intro q hqw hqt
    rcases Nat.le_total p.initialDelay q.initialDelay with hle | hle
    · have hs := basicPollLoop_shift p.waitDelay p.timeout
        (q.initialDelay - p.initialDelay) fn (t0 + p.initialDelay)
        (t0 + p.initialDelay) s 0
      have hq : t0 + p.initialDelay + (q.initialDelay - p.initialDelay) =
          t0 + q.initialDelay := by omega
      rw [hq] at hs
      rw [BasicPoller.runAt, BasicPoller.runAt, hqw, hqt, hs]
      exact ⟨rfl, rfl, rfl⟩
    · have hs := basicPollLoop_shift p.waitDelay p.timeout
        (p.initialDelay - q.initialDelay) fn (t0 + q.initialDelay)
        (t0 + q.initialDelay) s 0
      have hq : t0 + q.initialDelay + (p.initialDelay - q.initialDelay) =
          t0 + p.initialDelay := by omega
      rw [hq] at hs
      rw [BasicPoller.runAt, BasicPoller.runAt, hqw, hqt, hs]
      exact ⟨rfl, rfl, rfl⟩

/-- A concrete check functor over a counter state: true from the third
state on, incrementing the counter each evaluation. -/
def pollCheckW : Nat → PollStep Nat Unit :=
  fun n => .val (decide (3 ≤ n)) (n + 1)

/-- C8 witness: concrete instances of all four parts of the poller
claim. -/
theorem basicPoller_semantics_witness :
    (1 ≤ ((⟨5, 2, 0⟩ : BasicPoller).runAt pollCheckW 0 7).evals)
    ∧ ((⟨5, 2, 0⟩ : BasicPoller).runAt pollCheckW 0 7).evals = 1
    ∧ (⟨5, 2, 0⟩ : BasicPoller).runAt pollCheckW 0 7 = ⟨1, 5, .success, 8⟩
    ∧ (((⟨9, 2, 0⟩ : BasicPoller).runAt pollCheckW 0 7).evals =
        ((⟨5, 2, 0⟩ : BasicPoller).runAt pollCheckW 0 7).evals
      ∧ ((⟨9, 2, 0⟩ : BasicPoller).runAt pollCheckW 0 7).res =
        ((⟨5, 2, 0⟩ : BasicPoller).runAt pollCheckW 0 7).res
      ∧ ((⟨9, 2, 0⟩ : BasicPoller).runAt pollCheckW 0 7).state =
        ((⟨5, 2, 0⟩ : BasicPoller).runAt pollCheckW 0 7).state) :=
  ⟨(basicPoller_semantics ⟨5, 2, 0⟩ pollCheckW 0 7).1,
   (basicPoller_semantics ⟨5, 2, 0⟩ pollCheckW 0 7).2.1 rfl,
   (basicPoller_semantics ⟨5, 2, 0⟩ pollCheckW 0 7).2.2.1 8 rfl,
   (basicPoller_semantics ⟨5, 2, 0⟩ pollCheckW 0 7).2.2.2 ⟨9, 2, 0⟩ rfl rfl⟩

/-! ### The lifecycle protocol (C2) -/

/-- Every event produced by the per-element extras helper is an
`opExtra` event. -/
theorem mem_extrasOf_isExtra (nm : String) (vals : List Nat) :
    ∀ x ∈ (extrasOf (ε := ε) nm vals), x.isExtra = true := by
  intro x hx
  simp only [extrasOf, List.mem_map] at hx
  obtain ⟨v, _, rfl⟩ := hx
  rfl

/-- Every event produced by the per-pair extras helper is an `opExtra`
event. -/
theorem mem_extrasOfPairs_isExtra (nm : String) (pairs : List (Nat × Nat)) :
    ∀ x ∈ (extrasOfPairs (ε := ε) nm pairs), x.isExtra = true := by
  intro x hx
  simp only [extrasOfPairs, List.mem_map] at hx
  obtain ⟨v, _, rfl⟩ := hx
  rfl

/-- C2: for every wrapped operation and every behaviour of the
underlying target, with an interposer attached: on success the observed
events are exactly one `opStart`, then zero or more `opExtra` events,
then exactly one `opEnd` — no `opError`; on failure they are exactly one
`opStart`, then zero or more `opExtra` events, then exactly one
`opError` carrying the very exception the caller receives — no `opEnd`.
Moreover an exception thrown by the underlying target propagates to the
caller unchanged (shown for the two primitives; every other operation
propagates its underlying method's exception the same way, which is part
of the per-operation case analysis of this proof). -/
theorem fluent_lifecycle (tgt : RegisterTarget σ ε) (s : σ) :
    (∀ (op : FOp),
      (∀ outs s', (runFluentOp op tgt true s).result = .ok outs s' →
        ∃ m xs, (runFluentOp op tgt true s).events =
            .opStart "FluentRegisterTarget" tgt.name m ::
              (xs ++ [.opEnd "FluentRegisterTarget" tgt.name])
          ∧ ∀ x ∈ xs, x.isExtra = true)
      ∧ (∀ e st, (runFluentOp op tgt true s).result = .failed e st →
        ∃ m xs, (runFluentOp op tgt true s).events =
            .opStart "FluentRegisterTarget" tgt.name m ::
              (xs ++ [.opError "FluentRegisterTarget" tgt.name e])
          ∧ ∀ x ∈ xs, x.isExtra = true))
    ∧ (∀ addr data e, tgt.write s addr data = .error e →
        (runFluentOp (.write addr data) tgt true s).result = .failed e none)
    ∧ (∀ addr e, tgt.read s addr = .error e →
        (runFluentOp (.read addr) tgt true s).result = .failed e none) := by
  refine ⟨?_, ?_, ?_⟩
  · intro op
    cases op with
    | nullOp =>
      refine ⟨fun outs s' _ => ⟨"Null", [],
        by simp [runFluentOp, fluentNull, emitIf], by simp⟩, ?_⟩
      intro e st h
      simp [runFluentOp, fluentNull] at h
    | delay d =>
      refine ⟨fun outs s' _ => ⟨"Delay", [],
        by simp [runFluentOp, fluentDelay, emitIf], by simp⟩, ?_⟩
      intro e st h
      simp [runFluentOp, fluentDelay] at h
    | write addr data =>
      refine ⟨?_, ?_⟩
      · intro outs s' h
        simp only [runFluentOp, fluentWrite] at h ⊢
        cases hw : tgt.write s addr data with
        | error e => rw [hw] at h; simp at h
        | ok s1 => exact ⟨"Write", [], by simp [emitIf], by simp⟩
      · intro e st h
        simp only [runFluentOp, fluentWrite] at h ⊢
        cases hw : tgt.write s addr data with
        | ok s1 => rw [hw] at h; simp at h
        | error e' =>
          rw [hw] at h
          simp only [OpResult.failed.injEq] at h
          obtain ⟨rfl, rfl⟩ := h
          exact ⟨"Write", [], by simp [emitIf], by simp⟩
    | read addr =>
      refine ⟨?_, ?_⟩
      · intro outs s' h
        simp only [runFluentOp, fluentRead] at h ⊢
        cases hw : tgt.read s addr with
        | error e => rw [hw] at h; simp at h
        | ok vs1 =>
          obtain ⟨v, s1⟩ := vs1
          exact ⟨"Read", [.opExtra "FluentRegisterTarget" tgt.name [v]],
            by simp [emitIf], by simp [FEvent.isExtra]⟩
      · intro e st h
        simp only [runFluentOp, fluentRead] at h ⊢
        cases hw : tgt.read s addr with
        | ok vs1 => obtain ⟨v, s1⟩ := vs1; rw [hw] at h; simp at h
        | error e' =>
          rw [hw] at h
          simp only [OpResult.failed.injEq] at h
          obtain ⟨rfl, rfl⟩ := h
          exact ⟨"Read", [], by simp [emitIf], by simp⟩
    | readModifyWrite addr nd m =>
      refine ⟨?_, ?_⟩
      · intro outs s' h
        simp only [runFluentOp, fluentReadModifyWrite] at h ⊢
        cases hw : tgt.readModifyWrite s addr nd m with
        | error e => rw [hw] at h; simp at h
        | ok s1 => exact ⟨"ReadModifyWrite", [], by simp [emitIf], by simp⟩
      · intro e st h
        simp only [runFluentOp, fluentReadModifyWrite] at h ⊢
        cases hw : tgt.readModifyWrite s addr nd m with
        | ok s1 => rw [hw] at h; simp at h
        | error e' =>
          rw [hw] at h
          simp only [OpResult.failed.injEq] at h
          obtain ⟨rfl, rfl⟩ := h
          exact ⟨"ReadModifyWrite", [], by simp [emitIf], by simp⟩
    | seqWrite start data inc =>
      refine ⟨?_, ?_⟩
      · intro outs s' h
        simp only [runFluentOp, fluentSeqWrite] at h ⊢
        cases hw : tgt.seqWrite s start data inc with
        | error e => rw [hw] at h; simp at h
        | ok s1 =>
          exact ⟨"SeqWrite", extrasOf tgt.name data, by simp [emitIf],
            mem_extrasOf_isExtra tgt.name data⟩
      · intro e st h
        simp only [runFluentOp, fluentSeqWrite] at h ⊢
        cases hw : tgt.seqWrite s start data inc with
        | ok s1 => rw [hw] at h; simp at h
        | error e' =>
          rw [hw] at h
          simp only [OpResult.failed.injEq] at h
          obtain ⟨rfl, rfl⟩ := h
          exact ⟨"SeqWrite", extrasOf tgt.name data, by simp [emitIf],
            mem_extrasOf_isExtra tgt.name data⟩
    | seqRead start count inc =>
      refine ⟨?_, ?_⟩
      · intro outs s' h
        simp only [runFluentOp, fluentSeqRead] at h ⊢
        cases hw : tgt.seqRead s start count inc with
        | error e => rw [hw] at h; simp at h
        | ok vs1 =>
          obtain ⟨vs, s1⟩ := vs1
          exact ⟨"SeqRead", extrasOf tgt.name vs, by simp [emitIf],
            mem_extrasOf_isExtra tgt.name vs⟩
      · intro e st h
        simp only [runFluentOp, fluentSeqRead] at h ⊢
        cases hw : tgt.seqRead s start count inc with
        | ok vs1 => obtain ⟨vs, s1⟩ := vs1; rw [hw] at h; simp at h
        | error e' =>
          rw [hw] at h
          simp only [OpResult.failed.injEq] at h
          obtain ⟨rfl, rfl⟩ := h
          exact ⟨"SeqRead", [], by simp [emitIf], by simp⟩
    | fifoWrite addr data =>
      refine ⟨?_, ?_⟩
      · intro outs s' h
        simp only [runFluentOp, fluentFifoWrite] at h ⊢
        cases hw : tgt.fifoWrite s addr data with
        | error e => rw [hw] at h; simp at h
        | ok s1 =>
          exact ⟨"FifoWrite", extrasOf tgt.name data, by simp [emitIf],
            mem_extrasOf_isExtra tgt.name data⟩
      · intro e st h
        simp only [runFluentOp, fluentFifoWrite] at h ⊢
        cases hw : tgt.fifoWrite s addr data with
        | ok s1 => rw [hw] at h; simp at h
        | error e' =>
          rw [hw] at h
          simp only [OpResult.failed.injEq] at h
          obtain ⟨rfl, rfl⟩ := h
          exact ⟨"FifoWrite", extrasOf tgt.name data, by simp [emitIf],
            mem_extrasOf_isExtra tgt.name data⟩
    | fifoRead addr count =>
      refine ⟨?_, ?_⟩
      · intro outs s' h
        simp only [runFluentOp, fluentFifoRead] at h ⊢
        cases hw : tgt.fifoRead s addr count with
        | error e => rw [hw] at h; simp at h
        | ok vs1 =>
          obtain ⟨vs, s1⟩ := vs1
          exact ⟨"FifoRead", extrasOf tgt.name vs, by simp [emitIf],
            mem_extrasOf_isExtra tgt.name vs⟩
      · intro e st h
        simp only [runFluentOp, fluentFifoRead] at h ⊢
        cases hw : tgt.fifoRead s addr count with
        | ok vs1 => obtain ⟨vs, s1⟩ := vs1; rw [hw] at h; simp at h
        | error e' =>
          rw [hw] at h
          simp only [OpResult.failed.injEq] at h
          obtain ⟨rfl, rfl⟩ := h
          exact ⟨"FifoRead", [], by simp [emitIf], by simp⟩
    | compWrite pairs =>
      refine ⟨?_, ?_⟩
      · intro outs s' h
        simp only [runFluentOp, fluentCompWrite] at h ⊢
        cases hw : tgt.compWrite s pairs with
        | error e => rw [hw] at h; simp at h
        | ok s1 =>
          exact ⟨"CompWrite", extrasOfPairs tgt.name pairs, by simp [emitIf],
            mem_extrasOfPairs_isExtra tgt.name pairs⟩
      · intro e st h
        simp only [runFluentOp, fluentCompWrite] at h ⊢
        cases hw : tgt.compWrite s pairs with
        | ok s1 => rw [hw] at h; simp at h
        | error e' =>
          rw [hw] at h
          simp only [OpResult.failed.injEq] at h
          obtain ⟨rfl, rfl⟩ := h
          exact ⟨"CompWrite", extrasOfPairs tgt.name pairs, by simp [emitIf],
            mem_extrasOfPairs_isExtra tgt.name pairs⟩
    | compRead addrs outLen =>
      refine ⟨?_, ?_⟩
      · intro outs s' h
        simp only [runFluentOp, fluentCompRead] at h ⊢
        cases hw : tgt.compRead s addrs outLen with
        | error e => rw [hw] at h; simp at h
        | ok vs1 =>
          obtain ⟨vs, s1⟩ := vs1
          exact ⟨"CompRead", extrasOf tgt.name addrs ++ extrasOf tgt.name vs,
            by simp [emitIf],
            fun x hx => (List.mem_append.mp hx).elim
              (mem_extrasOf_isExtra tgt.name addrs x)
              (mem_extrasOf_isExtra tgt.name vs x)⟩
      · intro e st h
        simp only [runFluentOp, fluentCompRead] at h ⊢
        cases hw : tgt.compRead s addrs outLen with
        | ok vs1 => obtain ⟨vs, s1⟩ := vs1; rw [hw] at h; simp at h
        | error e' =>
          rw [hw] at h
          simp only [OpResult.failed.injEq] at h
          obtain ⟨rfl, rfl⟩ := h
          exact ⟨"CompRead", extrasOf tgt.name addrs, by simp [emitIf],
            mem_extrasOf_isExtra tgt.name addrs⟩
    | writeVerify addr data mask =>
      refine ⟨?_, ?_⟩
      · intro outs s' h
        simp only [runFluentOp, fluentWriteVerify] at h ⊢
        cases hw : tgt.write s addr data with
        | error e => rw [hw] at h; simp at h
        | ok s1 =>
          rw [hw] at h
          cases hr : tgt.read s1 addr with
          | error e => simp [hr] at h
          | ok vs2 =>
            obtain ⟨v, s2⟩ := vs2
            by_cases hm : v &&& mask = data &&& mask
            · exact ⟨"WriteVerify", [],
                by simp [hr, emitIf, if_neg (not_not_intro hm)], by simp⟩
            · simp [hr, if_pos hm] at h
      · intro e st h
        simp only [runFluentOp, fluentWriteVerify] at h ⊢
        cases hw : tgt.write s addr data with
        | error e' =>
          rw [hw] at h
          simp only [OpResult.failed.injEq] at h
          obtain ⟨rfl, rfl⟩ := h
          exact ⟨"WriteVerify", [], by simp [emitIf], by simp⟩
        | ok s1 =>
          rw [hw] at h
          cases hr : tgt.read s1 addr with
          | error e' =>
            simp only [hr, OpResult.failed.injEq] at h
            obtain ⟨rfl, rfl⟩ := h
            exact ⟨"WriteVerify", [], by simp [hr, emitIf], by simp⟩
          | ok vs2 =>
            obtain ⟨v, s2⟩ := vs2
            by_cases hm : v &&& mask = data &&& mask
            · simp [hr, if_neg (not_not_intro hm)] at h
            · simp only [hr, if_pos hm, OpResult.failed.injEq] at h
              obtain ⟨rfl, rfl⟩ := h
              exact ⟨"WriteVerify", [],
                by simp [hr, emitIf, if_pos hm], by simp⟩
    | readVerify addr expected mask =>
      refine ⟨?_, ?_⟩
      · intro outs s' h
        simp only [runFluentOp, fluentReadVerify] at h ⊢
        cases hr : tgt.read s addr with
        | error e => rw [hr] at h; simp at h
        | ok vs1 =>
          obtain ⟨v, s1⟩ := vs1
          by_cases hm : v &&& mask = expected &&& mask
          · exact ⟨"ReadVerify", [],
              by simp [emitIf, if_neg (not_not_intro hm)], by simp⟩
          · rw [hr] at h
            simp [if_pos hm] at h
      · intro e st h
        simp only [runFluentOp, fluentReadVerify] at h ⊢
        cases hr : tgt.read s addr with
        | error e' =>
          rw [hr] at h
          simp only [OpResult.failed.injEq] at h
          obtain ⟨rfl, rfl⟩ := h
          exact ⟨"ReadVerify", [], by simp [emitIf], by simp⟩
        | ok vs1 =>
          obtain ⟨v, s1⟩ := vs1
          rw [hr] at h
          by_cases hm : v &&& mask = expected &&& mask
          · simp [if_neg (not_not_intro hm)] at h
          · simp only [if_pos hm, OpResult.failed.injEq] at h
            obtain ⟨rfl, rfl⟩ := h
            exact ⟨"ReadVerify", [], by simp [emitIf, if_pos hm], by simp⟩
    | pollRead p addr expected mask =>
      refine ⟨?_, ?_⟩
      · intro outs s' h
        simp only [runFluentOp, fluentPollRead] at h ⊢
        cases hres : (pollReadLoop tgt p s addr expected mask).res with
        | err e => rw [hres] at h; simp at h
        | timedOut => rw [hres] at h; simp at h
        | success => exact ⟨"PollRead", [], by simp [emitIf], by simp⟩
      · intro e st h
        simp only [runFluentOp, fluentPollRead] at h ⊢
        cases hres : (pollReadLoop tgt p s addr expected mask).res with
        | success => rw [hres] at h; simp at h
        | err e' =>
          rw [hres] at h
          simp only [OpResult.failed.injEq] at h
          obtain ⟨rfl, rfl⟩ := h
          exact ⟨"PollRead", [], by simp [emitIf], by simp⟩
        | timedOut =>
          rw [hres] at h
          simp only [OpResult.failed.injEq] at h
          obtain ⟨rfl, rfl⟩ := h
          exact ⟨"PollRead", [], by simp [emitIf], by simp⟩
  · intro addr data e h
    simp [runFluentOp, fluentWrite, h]
  · intro addr e h
    simp [runFluentOp, fluentRead, h]

/-- C2 witness: a successful write on the dummy target yields the
start/end event pair with no extras and no errors, and a failing write on
the always-throwing target yields the start/error pair carrying the
propagated exception. -/
theorem fluent_lifecycle_witness :
    (∃ m xs, (runFluentOp (.write 3 5) dummyTarget true zeroStore).events =
        .opStart "FluentRegisterTarget" dummyTarget.name m ::
          (xs ++ [.opEnd "FluentRegisterTarget" dummyTarget.name])
      ∧ ∀ x ∈ xs, x.isExtra = true)
    ∧ (∃ m xs, (runFluentOp (.write 3 5) failTarget true zeroStore).events =
        .opStart "FluentRegisterTarget" failTarget.name m ::
          (xs ++ [.opError "FluentRegisterTarget" failTarget.name (.dev ())])
      ∧ ∀ x ∈ xs, x.isExtra = true)
    ∧ (runFluentOp (.write 3 5) failTarget true zeroStore).result =
        .failed (.dev ()) none :=
  ⟨((fluent_lifecycle dummyTarget zeroStore).1 (.write 3 5)).1 []
      (storeWrite zeroStore 3 5) rfl,
   ((fluent_lifecycle failTarget zeroStore).1 (.write 3 5)).2 (.dev ()) none
      rfl,
   (fluent_lifecycle failTarget zeroStore).2.1 3 5 (.dev ()) rfl⟩

/-! ### Masked comparison and read-only frame of the verify/poll
operations (C1, C6, C10) -/

/-- The value of register `a` in the target state carried by an
operation outcome (available on success and on wrapper-raised
failures). -/
def resultStateReg (r : OpResult (Nat → Nat) Unit) (a : Nat) : Option Nat :=
  match r with
  | .ok _ t => some (t a)
  | .failed _ (some t) => some (t a)
  | .failed _ none => none

/-- A non-throwing evaluation of `pollRead`'s check functor reports
`true` exactly when the value it just read matches the expected value
under the mask (the last value read is the second component of the poll
state). -/
theorem pollReadCheck_val (tgt : RegisterTarget σ ε)
    (addr ev mask : Nat) (ps st : σ × Nat × List TCall) (b : Bool)
    (h : pollReadCheck tgt addr ev mask ps = .val b st) :
    b = true ↔ st.2.1 &&& mask = ev := by
  unfold pollReadCheck at h
  cases hr : tgt.read ps.1 addr with
  | error e => rw [hr] at h; simp at h
  | ok vs =>
    obtain ⟨v, t⟩ := vs
    rw [hr] at h
    simp only [PollStep.val.injEq] at h
    obtain ⟨rfl, rfl⟩ := h
    simp

/-- C6: `readVerify` raises the verify-mismatch error — carrying
`expected & mask`, the mask, and the full readback — exactly when
`(readback & mask) != (expected & mask)`, and succeeds otherwise; and
`pollRead` (with the shipped `BasicPoller`) succeeds exactly when its
last read matched under the mask, while on poller timeout it fails with
the poll-timeout error carrying `expected & mask`, the mask and the last
value observed (which does not match under the mask). -/
theorem readVerify_pollRead_masked_compare (tgt : RegisterTarget σ ε)
    (s : σ) (addr expected mask : Nat) :
    (∀ v s', tgt.read s addr = .ok (v, s') →
      (fluentReadVerify tgt true s addr expected mask).result =
        (if v &&& mask = expected &&& mask then .ok [] s'
         else .failed (.readVerifyFailure (expected &&& mask) mask v)
           (some s')))
    ∧ (∀ p : BasicPoller,
        ((pollReadLoop tgt p s addr expected mask).res = .success →
          (fluentPollRead tgt true p s addr expected mask).result =
            .ok [] (pollReadLoop tgt p s addr expected mask).state.1
          ∧ (pollReadLoop tgt p s addr expected mask).state.2.1 &&& mask =
              expected &&& mask)
        ∧ ((pollReadLoop tgt p s addr expected mask).res = .timedOut →
          (fluentPollRead tgt true p s addr expected mask).result =
            .failed (.pollTimeout (expected &&& mask) mask
                (pollReadLoop tgt p s addr expected mask).state.2.1)
              (some (pollReadLoop tgt p s addr expected mask).state.1)
          ∧ ¬ (pollReadLoop tgt p s addr expected mask).state.2.1 &&& mask =
              expected &&& mask)) := by
  constructor
  · intro v s' hr
    by_cases hm : v &&& mask = expected &&& mask
    · simp [fluentReadVerify, hr, if_neg (not_not_intro hm), hm]
    · simp [fluentReadVerify, hr, if_pos hm, hm]
  · intro p
    have hL : pollReadLoop tgt p s addr expected mask =
        basicPollLoop p.waitDelay p.timeout (0 + p.initialDelay)
          (pollReadCheck tgt addr (expected &&& mask) mask)
          (0 + p.initialDelay) (s, 0, []) 0 := rfl
    have hexit := basicPollLoop_exit p.waitDelay p.timeout
      (0 + p.initialDelay) (pollReadCheck tgt addr (expected &&& mask) mask)
      (0 + p.initialDelay) (s, 0, []) 0
    rw [← hL] at hexit
    constructor
    · intro hres
      refine ⟨by simp [fluentPollRead, hres], ?_⟩
      obtain ⟨ps, hps⟩ := hexit.1 hres
      exact (pollReadCheck_val tgt addr (expected &&& mask) mask ps _ true
        hps).mp rfl
    · intro hres
      refine ⟨by simp [fluentPollRead, hres], ?_⟩
      obtain ⟨ps, hps⟩ := hexit.2.1 hres
      intro hc
      exact Bool.false_ne_true ((pollReadCheck_val tgt addr
        (expected &&& mask) mask ps _ false hps).mpr hc)

/-- C6 witness: on the dummy target holding 5 at register 0,
`readVerify(0, 5, 0xFF)` succeeds, and `pollRead(0, 5, 0xFF)` with a
`BasicPoller` succeeds on its first evaluation. -/
theorem readVerify_pollRead_masked_compare_witness :
    (fluentReadVerify dummyTarget true (storeWrite zeroStore 0 5)
        0 5 255).result = .ok [] (storeWrite zeroStore 0 5)
    ∧ (fluentPollRead dummyTarget true ⟨0, 0, 1⟩ (storeWrite zeroStore 0 5)
        0 5 255).result = .ok [] (storeWrite zeroStore 0 5) := by
  have h := readVerify_pollRead_masked_compare dummyTarget
    (storeWrite zeroStore 0 5) 0 5 255
  constructor
  · rw [h.1 5 (storeWrite zeroStore 0 5) rfl]
    simp
  · have hrun := (basicPoller_semantics ⟨0, 0, 1⟩
      (pollReadCheck dummyTarget 0 5 255) 0
      ((storeWrite zeroStore 0 5), 0, [])).2.2.1
      ((storeWrite zeroStore 0 5), 5, [TCall.read 0]) rfl
    have hLrun : pollReadLoop dummyTarget ⟨0, 0, 1⟩
        (storeWrite zeroStore 0 5) 0 5 255 =
        ⟨1, 0, .success, ((storeWrite zeroStore 0 5), 5, [TCall.read 0])⟩ :=
      hrun
    have hsucc := (h.2 ⟨0, 0, 1⟩).1 (by rw [hLrun])
    rw [hLrun] at hsucc
    exact hsucc.1

/-- C10 counterexample: against a clear-on-read target holding 5 at
register 0, `readVerify(0, 5, 0xFF)` succeeds while the register state
changes (the register reads back as 0 afterwards) — the claim's
unconditional "the target's register state is unchanged" fails, because
an underlying `read` may itself modify device state. -/
theorem readVerify_state_change_counterexample :
    resultStateReg (fluentReadVerify clearOnReadTarget true
      (storeWrite zeroStore 0 5) 0 5 255).result 0 = some 0
    ∧ (storeWrite zeroStore 0 5) 0 = 5 := by decide

/-- C10 (amended): `readVerify` and `pollRead` never invoke `write` on
the underlying target — `readVerify` makes exactly one `read` call and
every call of `pollRead` is a `read` of the polled register — and for
any target whose `read` leaves the device state unchanged, the register
state after either operation equals the state before it, including on
the wrapper-raised error paths (verify mismatch and poll timeout). -/
theorem verify_poll_read_only (tgt : RegisterTarget σ ε) (s : σ)
    (addr expected mask : Nat) (p : BasicPoller) :
    ((fluentReadVerify tgt true s addr expected mask).calls = [.read addr])
    ∧ (∀ c ∈ (fluentPollRead tgt true p s addr expected mask).calls,
        c = TCall.read addr)
    ∧ ((∀ t a v t', tgt.read t a = .ok (v, t') → t' = t) →
        (∀ outs s', (fluentReadVerify tgt true s addr expected mask).result =
            .ok outs s' → s' = s)
        ∧ (∀ er s', (fluentReadVerify tgt true s addr expected mask).result =
            .failed er (some s') → s' = s)
        ∧ (∀ outs s', (fluentPollRead tgt true p s addr expected mask).result =
            .ok outs s' → s' = s)
        ∧ (∀ er s', (fluentPollRead tgt true p s addr expected mask).result =
            .failed er (some s') → s' = s)) := by
  have hL : pollReadLoop tgt p s addr expected mask =
      basicPollLoop p.waitDelay p.timeout (0 + p.initialDelay)
        (pollReadCheck tgt addr (expected &&& mask) mask)
        (0 + p.initialDelay) (s, 0, []) 0 := rfl
  refine ⟨?_, ?_, ?_⟩
  · cases hr : tgt.read s addr with
    | error e => simp [fluentReadVerify, hr]
    | ok vs =>
      obtain ⟨v, s'⟩ := vs
      by_cases hm : v &&& mask = expected &&& mask
      · simp [fluentReadVerify, hr, if_neg (not_not_intro hm)]
      · simp [fluentReadVerify, hr, if_pos hm]
  · have hinv := basicPollLoop_inv p.waitDelay p.timeout
      (0 + p.initialDelay) (pollReadCheck tgt addr (expected &&& mask) mask)
      (fun ps => ∀ c ∈ ps.2.2, c = TCall.read addr)
      ?hval ?hthr (0 + p.initialDelay) (s, 0, []) 0 (by simp)
    case hval =>
      intro ps b ps' hstep hp
      unfold pollReadCheck at hstep
      cases hr : tgt.read ps.1 addr with
      | error e => rw [hr] at hstep; simp at hstep
      | ok vt =>
        obtain ⟨v, t⟩ := vt
        rw [hr] at hstep
        simp only [PollStep.val.injEq] at hstep
        obtain ⟨-, rfl⟩ := hstep
        intro c hc
        rcases List.mem_append.mp hc with hc | hc
        · exact hp c hc
        · simpa using hc
    case hthr =>
      intro ps e ps' hstep hp
      unfold pollReadCheck at hstep
      cases hr : tgt.read ps.1 addr with
      | ok vt => obtain ⟨v, t⟩ := vt; rw [hr] at hstep; simp at hstep
      | error e' =>
        rw [hr] at hstep
        simp only [PollStep.thrown.injEq] at hstep
        obtain ⟨-, rfl⟩ := hstep
        intro c hc
        rcases List.mem_append.mp hc with hc | hc
        · exact hp c hc
        · simpa using hc
    rw [← hL] at hinv
    cases hres : (pollReadLoop tgt p s addr expected mask).res with
    | err e => simpa [fluentPollRead, hres] using hinv
    | success => simpa [fluentPollRead, hres] using hinv
    | timedOut => simpa [fluentPollRead, hres] using hinv
  · intro hpure
    have hst : (pollReadLoop tgt p s addr expected mask).state.1 = s := by
      have hinv := basicPollLoop_inv p.waitDelay p.timeout
        (0 + p.initialDelay)
        (pollReadCheck tgt addr (expected &&& mask) mask)
        (fun ps => ps.1 = s) ?hval ?hthr
        (0 + p.initialDelay) (s, 0, []) 0 rfl
      case hval =>
        intro ps b ps' hstep hp
        unfold pollReadCheck at hstep
        cases hr : tgt.read ps.1 addr with
        | error e => rw [hr] at hstep; simp at hstep
        | ok vt =>
          obtain ⟨v, t⟩ := vt
          rw [hr] at hstep
          simp only [PollStep.val.injEq] at hstep
          obtain ⟨-, rfl⟩ := hstep
          rw [← hp]
          exact hpure ps.1 addr v t hr
      case hthr =>
        intro ps e ps' hstep hp
        unfold pollReadCheck at hstep
        cases hr : tgt.read ps.1 addr with
        | ok vt => obtain ⟨v, t⟩ := vt; rw [hr] at hstep; simp at hstep
        | error e' =>
          rw [hr] at hstep
          simp only [PollStep.thrown.injEq] at hstep
          obtain ⟨-, rfl⟩ := hstep
          exact hp
      rw [← hL] at hinv
      exact hinv
    refine ⟨?_, ?_, ?_, ?_⟩
    · intro outs s' h
      cases hr : tgt.read s addr with
      | error e => simp [fluentReadVerify, hr] at h
      | ok vt =>
        obtain ⟨v, t⟩ := vt
        by_cases hm : v &&& mask = expected &&& mask
        · simp only [fluentReadVerify, hr, if_neg (not_not_intro hm),
            OpResult.ok.injEq] at h
          obtain ⟨-, h2⟩ := h
          rw [← h2]
          exact hpure s addr v t hr
        · simp [fluentReadVerify, hr, if_pos hm] at h
    · intro er s' h
      cases hr : tgt.read s addr with
      | error e => simp [fluentReadVerify, hr] at h
      | ok vt =>
        obtain ⟨v, t⟩ := vt
        by_cases hm : v &&& mask = expected &&& mask
        · simp [fluentReadVerify, hr, if_neg (not_not_intro hm)] at h
        · simp only [fluentReadVerify, hr, if_pos hm,
            OpResult.failed.injEq, Option.some.injEq] at h
          obtain ⟨-, h2⟩ := h
          rw [← h2]
          exact hpure s addr v t hr
    · intro outs s' h
      cases hres : (pollReadLoop tgt p s addr expected mask).res with
      | err e => simp [fluentPollRead, hres] at h
      | timedOut => simp [fluentPollRead, hres] at h
      | success =>
        simp only [fluentPollRead, hres, OpResult.ok.injEq] at h
        obtain ⟨-, h2⟩ := h
        rw [← h2]
        exact hst
    · intro er s' h
      cases hres : (pollReadLoop tgt p s addr expected mask).res with
      | success => simp [fluentPollRead, hres] at h
      | err e => simp [fluentPollRead, hres] at h
      | timedOut =>
        simp only [fluentPollRead, hres, OpResult.failed.injEq,
          Option.some.injEq] at h
        obtain ⟨-, h2⟩ := h
        rw [← h2]
        exact hst

/-- C10 witness: on the dummy target (whose read does not modify state),
`readVerify` issues exactly one read and leaves the register state
unchanged. -/
theorem verify_poll_read_only_witness :
    (fluentReadVerify dummyTarget true (storeWrite zeroStore 0 5)
        0 5 255).calls = [TCall.read 0]
    ∧ storeWrite zeroStore 0 5 = storeWrite zeroStore 0 5 := by
  have h := verify_poll_read_only dummyTarget (storeWrite zeroStore 0 5)
    0 5 255 ⟨0, 0, 1⟩
  refine ⟨h.1, ?_⟩
  exact (h.2.2 (by intro t a v t' hr; cases hr; rfl)).1 []
    (storeWrite zeroStore 0 5) rfl

/-- C1: evaluation of `writeVerify(0x10, 0xFF, 0x0F)` against the
echoing dummy target: the single write issued to the target carries the
raw data `0xFF` (not `data & mask = 0x0F`), the verification read
follows, the operation succeeds, and the register is left holding
`0xFF`.  The claim (and the repository's own README) says the value
written is `data & mask`, i.e. the register would be left holding
`0x0F`; the code writes the raw data instead. -/
theorem writeVerify_raw_write_eval :
    (fluentWriteVerify dummyTarget true zeroStore 16 255 15).calls =
      [TCall.write 16 255, TCall.read 16]
    ∧ resultStateReg
        (fluentWriteVerify dummyTarget true zeroStore 16 255 15).result 16 =
      some 255
    ∧ (255 : Nat) &&& 15 = 15
    ∧ (255 : Nat) ≠ 15 := by decide

/-- C5: evaluation of a wrapped write against the dummy target (whose
`getDomain()` returns `"SimpleDummyRegisterTarget"`): the first hook
argument of the emitted events — including the `seq` annotation hook —
is the string literal `"FluentRegisterTarget"`, not the target's domain,
while the second is the target's `getName()`.  The repository's README
states both values come from the underlying target's `getDomain()` and
`getName()`. -/
theorem interposer_domain_literal_eval :
    (runFluentOp (.write 0 7) dummyTarget true zeroStore).events.head? =
      some (.opStart "FluentRegisterTarget" "dummy0" "Write")
    ∧ fluentSeq dummyTarget true "hello" =
      [.seqAnn "FluentRegisterTarget" "dummy0" "hello"]
    ∧ dummyTarget.domain = "SimpleDummyRegisterTarget"
    ∧ ("FluentRegisterTarget" : String) ≠ "SimpleDummyRegisterTarget" := by
  refine ⟨by decide, by decide, by decide, by decide⟩

end RTF
